import Mathlib

/-!
Verification of the nl2sql-service repository (schema-chunk extraction,
retrieval-augmented prompt construction, index bootstrap, and response
sanitization) against its natural-language specification.

Strings are modelled as `List Char`.  Python string operations
(`str.strip`, `str.lower`, `str.splitlines`, `str.rstrip(",")`,
`"sep".join`, substring `in`, `startswith`) are embedded as executable
functions on `List Char`, restricted to the ASCII character classes the
source manipulates.
-/

/-- ASCII whitespace, matching Python's `str.strip` / `\s` on the ASCII
range: space, tab, newline, carriage return, vertical tab, form feed. -/
def isPyWs (c : Char) : Bool :=
  c = ' ' || c = '\t' || c = '\n' || c = '\r' || c = Char.ofNat 11 || c = Char.ofNat 12

/-- ASCII lowercasing, matching Python `str.lower` / `re.IGNORECASE`
on the ASCII range. -/
def lowerChar (c : Char) : Char :=
  if 'A' ≤ c ∧ c ≤ 'Z' then Char.ofNat (c.toNat + 32) else c

/-- Lowercase every character of a string. -/
def lowerStr (s : List Char) : List Char := s.map lowerChar

/-- The single-quote character (written by code point to keep the
development free of quote literals). -/
def squote : Char := Char.ofNat 39

/-- The backtick character (written by code point). -/
def btick : Char := Char.ofNat 96

/-- Characters allowed in a table identifier by the extraction regex:
`[A-Za-z0-9_]`. -/
def identChar (c : Char) : Bool :=
  ('A' ≤ c && c ≤ 'Z') || ('a' ≤ c && c ≤ 'z') || ('0' ≤ c && c ≤ '9') || c = '_'

/-- Boolean substring test: does `pat` occur contiguously inside `s`?
This models Python's `pat in s`. -/
def containsSeq (pat : List Char) : List Char → Bool
  | [] => pat.isEmpty
  | c :: rest => pat.isPrefixOf (c :: rest) || containsSeq pat rest

/-- Python `str.lstrip()`: drop leading whitespace. -/
def pyLstrip (s : List Char) : List Char := s.dropWhile isPyWs

/-- Python `str.rstrip()`: drop trailing whitespace. -/
def pyRstrip (s : List Char) : List Char := (s.reverse.dropWhile isPyWs).reverse

/-- Python `str.strip()`: drop leading and trailing whitespace. -/
def pyStrip (s : List Char) : List Char := pyRstrip (pyLstrip s)

/-- Python `str.rstrip(",")`: drop all trailing commas. -/
def rstripCommas (s : List Char) : List Char :=
  (s.reverse.dropWhile (fun c => c = ',')).reverse

/-- Python `"sep".join(parts)`. -/
def pyJoin (sep : List Char) : List (List Char) → List Char
  | [] => []
  | [x] => x
  | x :: y :: rest => x ++ sep ++ pyJoin sep (y :: rest)

theorem containsSeq_iff_infix (pat s : List Char) :
    containsSeq pat s = true ↔ pat <:+: s := by
  induction s with
  | nil =>
    simp [containsSeq, List.isEmpty_iff]
  | cons c rest ih =>
    simp only [containsSeq, Bool.or_eq_true, List.isPrefixOf_iff_prefix, ih,
      List.infix_cons_iff]

theorem not_containsSeq_iff (pat s : List Char) :
    containsSeq pat s = false ↔ ¬ pat <:+: s := by
  rw [← containsSeq_iff_infix]
  cases containsSeq pat s <;> simp

/-!
Embedding of `app/schema_docs.py`.
-/

/-- A schema chunk: one `CREATE TABLE` statement rendered for embedding
(`schema_docs.SchemaChunk`, a dataclass with fields `id` and `text`). -/
structure SchemaChunk where
  id : List Char
  text : List Char
deriving DecidableEq, Repr

/-- Removal of single-line SQL comments, modelling
`re.sub(r"--.*?$", "", sql_text, flags=re.MULTILINE)`: each occurrence of
`--` is removed together with the rest of its line (the terminating
newline is kept, since `.` does not match a newline).  The Boolean flag
is true while inside a comment being removed. -/
def stripLineCommentsGo : Bool → List Char → List Char
  | _, [] => []
  | true, c :: rest =>
    if c = '\n' then '\n' :: stripLineCommentsGo false rest
    else stripLineCommentsGo true rest
  | false, c :: rest =>
    if c = '-' ∧ rest.head? = some '-' then stripLineCommentsGo true rest.tail
    else c :: stripLineCommentsGo false rest
termination_by _ s => s.length
decreasing_by
  · simp
  · simp
  · have : rest.tail.length ≤ rest.length := by cases rest <;> simp
    simp
    omega
  · simp

/-- Removal of single-line SQL comments (entry point). -/
def stripLineComments (s : List Char) : List Char := stripLineCommentsGo false s

/-- Scan for the two-character sequence closing a block comment and
return everything after it, or `none` if it never occurs. -/
def dropThroughStar : List Char → Option (List Char)
  | [] => none
  | [_] => none
  | c1 :: c2 :: rest =>
    if c1 = '*' ∧ c2 = '/' then some rest
    else dropThroughStar (c2 :: rest)
termination_by s => s.length

theorem dropThroughStar_length {s r : List Char} (h : dropThroughStar s = some r) :
    r.length < s.length := by
  induction s using dropThroughStar.induct with
  | case1 => simp [dropThroughStar] at h
  | case2 => simp [dropThroughStar] at h
  | case3 c1 c2 rest hc =>
    rw [dropThroughStar, if_pos hc] at h
    cases h
    simp
    omega
  | case4 c1 c2 rest hc ih =>
    rw [dropThroughStar, if_neg hc] at h
    have := ih h
    simp at this ⊢
    omega

/-- Removal of block comments, modelling
`re.sub(r"/\*.*?\*/", "", text, flags=re.DOTALL)`: each `/*` is removed
together with everything up to and including the first following `*/`;
a `/*` with no following `*/` matches nothing and is kept verbatim. -/
def stripBlockComments : List Char → List Char
  | [] => []
  | c :: rest =>
    if c = '/' ∧ rest.head? = some '*' then
      match h : dropThroughStar rest.tail with
      | some r => stripBlockComments r
      | none => c :: rest
    else c :: stripBlockComments rest
termination_by s => s.length
decreasing_by
  · have h1 := dropThroughStar_length h
    have h2 : rest.tail.length ≤ rest.length := by cases rest <;> simp
    simp
    omega
  · simp

/-- Is the character a line boundary for `str.splitlines`?  The ASCII
line boundaries are `\n`, `\r`, `\v`, `\f` (with `\r\n` counting as a
single boundary, handled in `splitLinesGo`). -/
def isLineBreak (c : Char) : Bool :=
  c = '\n' || c = '\r' || c = Char.ofNat 11 || c = Char.ofNat 12

/-- Worker for `splitLinesPy`; `cur` is the current line accumulated in
reverse. -/
def splitLinesGo (cur : List Char) : List Char → List (List Char)
  | [] => if cur.isEmpty then [] else [cur.reverse]
  | [c] =>
    if isLineBreak c then [cur.reverse] else [(c :: cur).reverse]
  | c1 :: c2 :: rest =>
    if c1 = '\r' then
      if c2 = '\n' then cur.reverse :: splitLinesGo [] rest
      else cur.reverse :: splitLinesGo [] (c2 :: rest)
    else if isLineBreak c1 then cur.reverse :: splitLinesGo [] (c2 :: rest)
    else splitLinesGo (c1 :: cur) (c2 :: rest)

/-- Python `str.splitlines()` restricted to the ASCII line boundaries:
no entry is produced for a trailing line terminator, and `\r\n` counts
as one boundary. -/
def splitLinesPy (s : List Char) : List (List Char) := splitLinesGo [] s

/-- The non-blank body lines of a `CREATE TABLE` body, each stripped:
`[line.strip() for line in table_body.splitlines() if line.strip()]`. -/
def bodyLines (body : List Char) : List (List Char) :=
  ((splitLinesPy body).map pyStrip).filter (fun l => !l.isEmpty)

/-- The constraint-line test of `_extract_create_table_blocks`: the
lowercased line contains `" primary key"` or `" foreign key"` (note the
leading space), or starts with `constraint`, `unique`, `index`, or
`"key "` (note the trailing space). -/
def isConstraintLine (line : List Char) : Bool :=
  let l := lowerStr line
  containsSeq " primary key".data l || containsSeq " foreign key".data l ||
    "constraint".data.isPrefixOf l || "unique".data.isPrefixOf l ||
    "index".data.isPrefixOf l || "key ".data.isPrefixOf l

/-- Split the body lines into column lines and constraint lines, each
with trailing commas stripped, preserving order (the two `for` branches
appending to `cleaned_cols` and `constraints`). -/
def classifyLines : List (List Char) → List (List Char) × List (List Char)
  | [] => ([], [])
  | l :: rest =>
    let p := classifyLines rest
    if isConstraintLine l then (p.1, rstripCommas l :: p.2)
    else (rstripCommas l :: p.1, p.2)

/-- The placeholder appended when column lines are clipped. -/
def colTruncMarker : List Char := "-- (columns truncated for brevity)".data

/-- The placeholder appended when constraint lines are clipped. -/
def consTruncMarker : List Char := "-- (constraints truncated for brevity)".data

/-- Clip very wide tables: keep only the first `MAX_COL_LINES = 40`
column lines, appending a placeholder when clipped. -/
def capColumns (cols : List (List Char)) : List (List Char) :=
  if 40 < cols.length then cols.take 40 ++ [colTruncMarker] else cols

/-- Keep only the first `MAX_CONSTRAINT_LINES = 15` constraint lines,
appending a placeholder when clipped. -/
def capConstraints (cons : List (List Char)) : List (List Char) :=
  if 15 < cons.length then cons.take 15 ++ [consTruncMarker] else cons

/-- The compact body lines of a chunk: capped column lines followed by
capped constraint lines (`compact_body_lines = cleaned_cols + constraints`). -/
def compactLines (body : List Char) : List (List Char) :=
  let p := classifyLines (bodyLines body)
  capColumns p.1 ++ capConstraints p.2

/-- The normalized rendering of one table
(`raw_text` in `_extract_create_table_blocks`). -/
def rawChunkText (tableName body : List Char) : List Char :=
  "Table: ".data ++ tableName ++
    "\nColumns and constraints (simplified):\nCREATE TABLE ".data ++ tableName ++
    " (\n  ".data ++ pyJoin ",\n  ".data (compactLines body) ++ "\n);".data

/-- The marker appended by `_truncate_text` when a chunk is clipped. -/
def truncMarker : List Char := "\n-- (truncated for embedding)\n".data

/-- Hard length cap per chunk (`_truncate_text`, `max_chars = 4000`):
text at most 4000 characters long is returned unchanged, anything longer
becomes its first 4000 characters followed by the truncation marker. -/
def truncateText (text : List Char) : List Char :=
  if text.length ≤ 4000 then text else text.take 4000 ++ truncMarker

/-- Build the chunk for one regex match (the loop body of
`_extract_create_table_blocks`). -/
def mkChunk (tableName body : List Char) : SchemaChunk :=
  { id := tableName, text := truncateText (rawChunkText tableName body) }

/-- Case-insensitive literal matcher: if `pat` (given lowercase) is a
prefix of `s` up to ASCII case, consume it and return the rest. -/
def dropCI (pat s : List Char) : Option (List Char) :=
  if pat.isPrefixOf (lowerStr s) then some (s.drop pat.length) else none

/-- Scan for the first occurrence of the two-character closer of a
`CREATE TABLE` statement (a right parenthesis followed by a semicolon),
returning the text before it and the text after it.  This realizes the
lazy body capture `(.*?)\);` of the extraction regex under `re.DOTALL`. -/
def splitCloseParen : List Char → Option (List Char × List Char)
  | [] => none
  | [_] => none
  | c1 :: c2 :: rest =>
    if c1 = ')' ∧ c2 = ';' then some ([], rest)
    else (splitCloseParen (c2 :: rest)).map (fun p => (c1 :: p.1, p.2))
termination_by s => s.length

theorem splitCloseParen_length {s : List Char} :
    ∀ {b r : List Char}, splitCloseParen s = some (b, r) → r.length < s.length := by
  induction s using splitCloseParen.induct with
  | case1 => intro b r h; simp [splitCloseParen] at h
  | case2 => intro b r h; simp [splitCloseParen] at h
  | case3 c1 c2 rest hc =>
    intro b r h
    rw [splitCloseParen, if_pos hc] at h
    cases h
    simp
    omega
  | case4 c1 c2 rest hc ih =>
    intro b r h
    rw [splitCloseParen, if_neg hc] at h
    cases h' : splitCloseParen (c2 :: rest) with
    | none => rw [h'] at h; simp at h
    | some p =>
      obtain ⟨b', r'⟩ := p
      rw [h'] at h
      simp at h
      obtain ⟨h1, h2⟩ := h
      subst h2
      have hlt := ih h'
      simp at hlt ⊢
      omega

/-- Greedy `\s+`: require at least one whitespace character and consume
the whole run. -/
def skipWs1 (s : List Char) : Option (List Char) :=
  if (s.takeWhile isPyWs).isEmpty then none else some (s.dropWhile isPyWs)

/-- Greedy `` `? ``: consume one optional backtick. -/
def skipBtick (s : List Char) : List Char :=
  if s.head? = some btick then s.tail else s

/-- Greedy `[A-Za-z0-9_]+`: capture one or more identifier characters. -/
def takeIdent (s : List Char) : Option (List Char × List Char) :=
  let nm := s.takeWhile identChar
  if nm.isEmpty then none else some (nm, s.dropWhile identChar)

/-- Greedy `\s*` followed by a literal left parenthesis. -/
def expectLParen (s : List Char) : Option (List Char) :=
  let d := s.dropWhile isPyWs
  if d.head? = some '(' then some d.tail else none

/-- Attempt to match the extraction regex
`CREATE\s+TABLE\s+`?([A-Za-z0-9_]+)`?\s*\((.*?)\);`
(flags `IGNORECASE` and `DOTALL`) at the head of `s`.  On success,
return the captured table name, the captured body, and the text after
the match.

The regex is realized by maximal-munch scanning, which coincides with
the backtracking semantics here: after each greedy `\s+`, `\s*` or
`[A-Za-z0-9_]+`, the following literal (`TABLE`, a parenthesis) can
never match a character the greedy piece just accepted, so no
backtracking into a greedy piece can succeed; the lazy body `(.*?)\);`
stops at the first occurrence of the closer. -/
def tryMatch (s : List Char) : Option (List Char × List Char × List Char) :=
  (dropCI "create".data s).bind fun s1 =>
  (skipWs1 s1).bind fun s2 =>
  (dropCI "table".data s2).bind fun s3 =>
  (skipWs1 s3).bind fun s4 =>
  (takeIdent (skipBtick s4)).bind fun p =>
  (expectLParen (skipBtick p.2)).bind fun s9 =>
  (splitCloseParen s9).map fun q => (p.1, q.1, q.2)

theorem dropCI_length {pat s s1 : List Char} (h : dropCI pat s = some s1) :
    s1.length ≤ s.length := by
  unfold dropCI at h
  split at h
  · cases h; simp
  · simp at h

theorem skipWs1_length {s s2 : List Char} (h : skipWs1 s = some s2) :
    s2.length ≤ s.length := by
  unfold skipWs1 at h
  split at h
  · simp at h
  · cases h
    exact (List.dropWhile_suffix isPyWs).length_le

theorem skipBtick_length (s : List Char) : (skipBtick s).length ≤ s.length := by
  unfold skipBtick
  split
  · cases s <;> simp
  · simp

theorem takeIdent_length {s : List Char} {p : List Char × List Char}
    (h : takeIdent s = some p) : p.2.length ≤ s.length := by
  unfold takeIdent at h
  simp only at h
  split at h
  · simp at h
  · cases h
    exact (List.dropWhile_suffix identChar).length_le

theorem expectLParen_length {s s9 : List Char} (h : expectLParen s = some s9) :
    s9.length < s.length := by
  unfold expectLParen at h
  simp only at h
  have hle : (s.dropWhile isPyWs).length ≤ s.length :=
    (List.dropWhile_suffix isPyWs).length_le
  split at h
  · cases h
    cases hd : s.dropWhile isPyWs with
    | nil => simp [hd] at *
    | cons c r =>
      rw [hd] at hle
      simp at hle ⊢
      omega
  · simp at h

theorem tryMatch_length {s : List Char} {n b rest : List Char}
    (h : tryMatch s = some (n, b, rest)) : rest.length < s.length := by
  unfold tryMatch at h
  obtain ⟨s1, h1, h⟩ := Option.bind_eq_some.mp h
  obtain ⟨s2, h2, h⟩ := Option.bind_eq_some.mp h
  obtain ⟨s3, h3, h⟩ := Option.bind_eq_some.mp h
  obtain ⟨s4, h4, h⟩ := Option.bind_eq_some.mp h
  obtain ⟨p, h5, h⟩ := Option.bind_eq_some.mp h
  obtain ⟨s9, h6, h⟩ := Option.bind_eq_some.mp h
  obtain ⟨q, h7, h⟩ := Option.map_eq_some'.mp h
  obtain ⟨qa, qb⟩ := q
  simp at h
  obtain ⟨hn, hb, hr⟩ := h
  subst hr
  have l1 := dropCI_length h1
  have l2 := skipWs1_length h2
  have l3 := dropCI_length h3
  have l4 := skipWs1_length h4
  have l5 := le_trans (takeIdent_length h5) (skipBtick_length s4)
  have l6 := lt_of_lt_of_le (expectLParen_length h6) (skipBtick_length p.2)
  have l7 := splitCloseParen_length h7
  omega

/-- Scan the whole text for non-overlapping regex matches, left to
right, resuming after each match (`pattern.finditer`): at each position
try `tryMatch`; on success emit the captures and continue after the
match, otherwise advance one character. -/
def findBlocks (s : List Char) : List (List Char × List Char) :=
  match h : tryMatch s with
  | some r => (r.1, r.2.1) :: findBlocks r.2.2
  | none =>
    match s with
    | [] => []
    | _ :: t => findBlocks t
termination_by s.length
decreasing_by
  · exact tryMatch_length h
  · simp

/-- The full extraction pipeline `_extract_create_table_blocks`: strip
single-line comments, strip block comments, find every `CREATE TABLE`
match, and render one `SchemaChunk` per match in source order. -/
def extractCreateTableBlocks (sqlText : List Char) : List SchemaChunk :=
  (findBlocks (stripBlockComments (stripLineComments sqlText))).map
    (fun m => mkChunk m.1 m.2)

/-!
Embedding of `app/rag_sql.py`.
-/

/-- An element of the `schema_chunks` iterable handed to `generate_sql`,
whose declared type is `Union[str, SchemaChunk]`. -/
inductive PromptChunk where
  | str : List Char → PromptChunk
  | chunk : SchemaChunk → PromptChunk
deriving DecidableEq

/-- The CPython dataclass `repr` of a `SchemaChunk`, for identifiers and
texts containing no quote or backslash characters (the only case the
code can reach, and then only with `text = ""`). -/
def pyReprChunk (ch : SchemaChunk) : List Char :=
  "SchemaChunk(id=".data ++ [squote] ++ ch.id ++ [squote] ++
    ", text=".data ++ [squote] ++ ch.text ++ [squote] ++ ")".data

/-- The text contributed by one element of `schema_chunks` in
`_chunks_to_text`: a plain string is used as is; a `SchemaChunk` whose
`text` is truthy (non-empty) contributes `ch.text`; otherwise, since the
dataclass has no `ddl` or `create_sql` attribute, the fallback
`str(ch)` (the dataclass repr) is used. -/
def promptChunkText : PromptChunk → List Char
  | .str s => s
  | .chunk ch => if ch.text.isEmpty then pyReprChunk ch else ch.text

/-- The text the specification calls the chunk's text: the `text` field
of a `SchemaChunk`, or the string itself. -/
def plainChunkText : PromptChunk → List Char
  | .str s => s
  | .chunk ch => ch.text

/-- `_chunks_to_text`: join the per-chunk texts with a blank-line
separator (`"\n\n".join(texts)`). -/
def chunksToText (chunks : List PromptChunk) : List Char :=
  pyJoin "\n\n".data (chunks.map promptChunkText)

/-- Python `str(n)` for an `int`. -/
def intChars (n : Int) : List Char := (toString n).data

/-- The five unconditional scoping lines of `generate_sql`. -/
def baseScopeLines : List (List Char) :=
  ["Think from a PATIENT-CENTRIC perspective.".data,
   "Whenever it makes sense, return one row per patient.".data,
   "Use the `patient` table as the driving table, aliased as `p`.".data,
   ("Unless the user explicitly asks only for an aggregate (like COUNT), " ++
     "start the SELECT clause with `SELECT p.id` as the first column, " ++
     "then add any other needed patient columns.").data,
   "Use MySQL-compatible SQL syntax.".data]

/-- The roster-scoping line appended when `roster_id is not None`. -/
def rosterClause (r : Int) : List Char :=
  "- The selected roster_id is ".data ++ intChars r ++
    (". Restrict results to patients in that roster.\n" ++
     "  Typically you should join the roster/patient association table, " ++
     "for example:\n" ++
     "  `FROM patient p\n" ++
     "   JOIN roster_patient rp ON rp.patient_id = p.id\n" ++
     "     AND rp.is_deleted = 0\n" ++
     "     AND rp.is_active = 1\n" ++
     "     AND rp.roster_id = ").data ++ intChars r ++
    ("`\n" ++
     "  Adjust table and column names to match the actual schema, but " ++
     "always limit to this roster when roster_id is given.").data

/-- The tenant-scoping line appended when `client_id is not None`. -/
def clientClause (c : Int) : List Char :=
  "- The selected client_id is ".data ++ intChars c ++
    (". If relevant tables have a `client_id` column, add conditions like " ++
     "`AND <table>.client_id = ").data ++ intChars c ++
    "` so the query is scoped to that client.".data

/-- The `scope_lines` list of `generate_sql`: the base lines, then the
roster clause when a roster id is given, then the client clause when a
client id is given. -/
def scopeLines (rosterId clientId : Option Int) : List (List Char) :=
  baseScopeLines ++
    (match rosterId with
     | some r => [rosterClause r]
     | none => []) ++
    (match clientId with
     | some c => [clientClause c]
     | none => [])

/-- `scope_instructions = "\n".join(scope_lines)`. -/
def scopeInstructions (rosterId clientId : Option Int) : List Char :=
  pyJoin "\n".data (scopeLines rosterId clientId)

/-- The fixed text of the system prompt before the scoping
instructions (the start of the f-string, which opens with a newline). -/
def sysPromptHeader : List Char :=
  ("\nYou are an expert SQL generator for a complex healthcare MySQL database.\n" ++
   "\n" ++
   "You must:\n" ++
   "- Use ONLY the tables and columns that exist in the provided schema context.\n" ++
   "- Choose the correct joins and filters based on the question.\n" ++
   "- Prefer patient-level queries where each row corresponds to a patient.\n" ++
   "- Use the `patient` table (aliased as `p`) as the main driving table whenever possible.\n" ++
   "- Unless the user explicitly wants only an aggregate (e.g. COUNT(*)), start your query with:\n" ++
   "    SELECT p.id\n" ++
   "  and then any additional columns needed.\n" ++
   "- Write valid MySQL SQL.\n" ++
   "- Output a single valid SQL statement.\n" ++
   "- Do NOT include explanations, comments, or Markdown.\n" ++
   "- Do NOT wrap the SQL in backticks.\n" ++
   "- Do NOT use placeholders like <value>; use concrete values when the question implies them.\n" ++
   "\n" ++
   "SCOPING INSTRUCTIONS:\n").data

/-- The fixed text of the system prompt between the scoping
instructions and the schema context. -/
def sysPromptMid : List Char :=
  "\n\nDATABASE SCHEMA CONTEXT (excerpts):\n".data

/-- The system prompt built by `generate_sql`: the f-string around the
scoping instructions and the schema context, followed by `.strip()`.
The question does not occur in it. -/
def systemPromptText (chunks : List PromptChunk) (rosterId clientId : Option Int) :
    List Char :=
  pyStrip (sysPromptHeader ++ scopeInstructions rosterId clientId ++ sysPromptMid ++
    chunksToText chunks ++ "\n".data)

/-- The user prompt built by `generate_sql`: depends only on the
question. -/
def userPromptText (question : List Char) : List Char :=
  pyStrip ("\nUser question:\n".data ++ question ++
    "\n\nReturn ONLY the SQL statement.\n".data)

/-- The deterministic prompt-building part of `generate_sql`
(everything before the chat-completion call): the system and user
prompts as a pair. -/
def generateSqlPrompts (question : List Char) (chunks : List PromptChunk)
    (rosterId clientId : Option Int) : List Char × List Char :=
  (systemPromptText chunks rosterId clientId, userPromptText question)

/-- Python `str.strip("`")`: drop leading and trailing backticks. -/
def stripBticks (s : List Char) : List Char :=
  ((s.dropWhile (fun c => c = btick)).reverse.dropWhile (fun c => c = btick)).reverse

/-- The response sanitization at the end of `generate_sql`: strip outer
whitespace; then, if the result starts with three backticks, strip all
surrounding backticks, and if what remains starts (case-insensitively)
with `sql`, drop those three characters and any following leading
whitespace. -/
def sanitizeSql (content : List Char) : List Char :=
  let sql := pyStrip content
  if ([btick, btick, btick].isPrefixOf sql) then
    let sql2 := stripBticks sql
    if "sql".data.isPrefixOf (lowerStr sql2) then pyLstrip (sql2.drop 3) else sql2
  else sql

/-!
Embedding of `app/vector_store.py`.
-/

/-- Number of embed/upsert batches for `total` chunks at
`BATCH_SIZE = 10`: the length of `range(0, total, 10)`. -/
def numBatches (total : Nat) : Nat := (total + 9) / 10

/-- Abstract model of `PineconeSchemaVectorStore._ensure_index_populated`
against an index backend reporting `count` existing vectors.  Returns
the vector count reported afterwards, the number of `_embed` calls, and
the number of `index.upsert` calls.  If the backend reports at least one
vector the routine returns immediately; otherwise each batch of at most
10 chunks is embedded and upserted once, and (modelling the external
index, where upsert overwrites by id) the resulting count is the number
of distinct chunk ids. -/
def ensureIndexPopulated (count : Nat) (chunks : List SchemaChunk) :
    Nat × Nat × Nat :=
  if 0 < count then (count, 0, 0)
  else ((chunks.map SchemaChunk.id).dedup.length,
    numBatches chunks.length, numBatches chunks.length)

/-!
Generator of well-formed DDL inputs, used to state the extraction
claims: a text containing N well-formed `CREATE TABLE name (body);`
statements is rendered from N `(separator, name, body)` entries followed
by a final separator.
-/

/-- One canonical well-formed `CREATE TABLE` statement. -/
def stmtText (tableName body : List Char) : List Char :=
  "CREATE TABLE ".data ++ tableName ++ " (".data ++ body ++ ");".data

/-- Render a DDL text from entries `(separator, name, body)` and a final
separator: each statement is preceded by its separator. -/
def renderStmts : List (List Char × List Char × List Char) → List Char → List Char
  | [], finalSep => finalSep
  | e :: rest, finalSep => e.1 ++ stmtText e.2.1 e.2.2 ++ renderStmts rest finalSep

/-- A well-formed separator: no `CREATE` (up to case) and no comment
opener occurs in it. -/
def sepOKb (s : List Char) : Bool :=
  !containsSeq "create".data (lowerStr s) && !containsSeq "--".data s &&
    !containsSeq "/*".data s

/-- A well-formed table name: non-empty and made of identifier
characters. -/
def nameOKb (n : List Char) : Bool := !n.isEmpty && n.all identChar

/-- A well-formed statement body: the closer `);` does not occur in it
(no problematic nested parentheses) and no comment opener occurs in
it. -/
def bodyOKb (b : List Char) : Bool :=
  !containsSeq ");".data b && !containsSeq "--".data b && !containsSeq "/*".data b

/-- A well-formed generator entry. -/
def entryOKb (e : List Char × List Char × List Char) : Bool :=
  sepOKb e.1 && nameOKb e.2.1 && bodyOKb e.2.2

/-!
Generic decomposition lemmas for substring occurrences in
concatenations.
-/

theorem lowerStr_append (a b : List Char) :
    lowerStr (a ++ b) = lowerStr a ++ lowerStr b := by
  simp [lowerStr]

theorem prefixAppendCases {p b : List Char} :
    ∀ {a : List Char}, p <+: a ++ b → p <+: a ∨ ∃ p2, p = a ++ p2 ∧ p2 <+: b := by
  intro a
  induction a generalizing p with
  | nil => intro h; exact Or.inr ⟨p, by simp, h⟩
  | cons c a' ih =>
    intro h
    rcases List.prefix_cons_iff.mp h with h0 | ⟨t, rfl, ht⟩
    · subst h0; exact Or.inl List.nil_prefix
    · rcases ih ht with h1 | ⟨p2, rfl, hp2⟩
      · exact Or.inl (List.cons_prefix_cons.mpr ⟨rfl, h1⟩)
      · exact Or.inr ⟨p2, by simp, hp2⟩

theorem infixAppendSplit {p b : List Char} :
    ∀ {a : List Char}, p <:+: a ++ b →
      p <:+: a ∨ p <:+: b ∨
        ∃ p1 p2, p1 ≠ [] ∧ p2 ≠ [] ∧ p = p1 ++ p2 ∧ p1 <:+ a ∧ p2 <+: b := by
  intro a
  induction a with
  | nil => intro h; exact Or.inr (Or.inl (by simpa using h))
  | cons c a' ih =>
    intro h
    rcases List.infix_cons_iff.mp h with hpre | htail
    · have hpre' : p <+: (c :: a') ++ b := hpre
      rcases prefixAppendCases hpre' with h1 | ⟨p2, rfl, hp2⟩
      · exact Or.inl h1.isInfix
      · rcases eq_or_ne p2 [] with rfl | hne
        · exact Or.inl (by simpa using List.infix_rfl)
        · exact Or.inr (Or.inr ⟨c :: a', p2, by simp, hne, rfl, List.suffix_rfl, hp2⟩)
    · rcases ih htail with h1 | h1 | ⟨p1, p2, hne1, hne2, rfl, hsuf, hpre2⟩
      · exact Or.inl (List.infix_cons h1)
      · exact Or.inr (Or.inl h1)
      · exact Or.inr (Or.inr ⟨p1, p2, hne1, hne2, rfl,
          hsuf.trans (List.suffix_cons c a'), hpre2⟩)

theorem singleton_suffix_getLast {x : Char} {a : List Char} (h : [x] <:+ a) :
    a.getLast? = some x := by
  obtain ⟨t, rfl⟩ := h
  simp

theorem singleton_prefix_head {y : Char} {b : List Char} (h : [y] <+: b) :
    b.head? = some y := by
  obtain ⟨t, rfl⟩ := h
  simp

theorem noPairInfixAppend {x y : Char} {a b : List Char}
    (hx : ¬ [x, y] <:+: a) (hy : ¬ [x, y] <:+: b)
    (hb : a.getLast? = some x → b.head? ≠ some y) :
    ¬ [x, y] <:+: (a ++ b) := by
  intro h
  rcases infixAppendSplit h with h1 | h1 | ⟨p1, p2, hne1, hne2, heq, hsuf, hpre⟩
  · exact hx h1
  · exact hy h1
  · have hp : p1 = [x] ∧ p2 = [y] := by
      have h' : p1 ++ p2 = [x, y] := heq.symm
      cases p1 with
      | nil => exact absurd rfl hne1
      | cons u p1' =>
        cases p1' with
        | nil =>
          cases p2 with
          | nil => exact absurd rfl hne2
          | cons v p2' =>
            simp only [List.singleton_append, List.cons.injEq] at h'
            obtain ⟨hu, hv, hp2'⟩ := h'
            exact ⟨by rw [hu], by rw [hv, hp2']⟩
        | cons u2 p1'' =>
          exfalso
          simp only [List.cons_append] at h'
          injection h' with h1 h'
          injection h' with h2 h'
          simp at h'
          exact hne2 h'.2
    obtain ⟨rfl, rfl⟩ := hp
    exact hb (singleton_suffix_getLast hsuf) (singleton_prefix_head hpre)

theorem infixAppendElimLast {p a b : List Char} {c0 : Char}
    (hc : c0 ∉ p) (ha : a.getLast? = some c0) (h : p <:+: a ++ b) :
    p <:+: a ∨ p <:+: b := by
  rcases infixAppendSplit h with h1 | h1 | ⟨p1, p2, hne1, hne2, rfl, hsuf, hpre⟩
  · exact Or.inl h1
  · exact Or.inr h1
  · exfalso
    obtain ⟨w, hw1, hw2⟩ : ∃ w, p1.getLast? = some w ∧ w ∈ p1 := by
      cases p1 with
      | nil => exact absurd rfl hne1
      | cons u p1' =>
        exact ⟨(u :: p1').getLast (by simp), List.getLast?_eq_getLast _ (by simp),
          List.getLast_mem _⟩
    have h2 : a.getLast? = some w := by
      obtain ⟨t, rfl⟩ := hsuf
      rw [List.getLast?_append, hw1]
      rfl
    rw [ha] at h2
    have : c0 ∈ p1 := by
      cases h2
      exact hw2
    exact hc (List.mem_append.mpr (Or.inl this))

theorem infixAppendElimHead {p a b : List Char} {c0 : Char}
    (hc : c0 ∉ p) (hb : b.head? = some c0) (h : p <:+: a ++ b) :
    p <:+: a ∨ p <:+: b := by
  rcases infixAppendSplit h with h1 | h1 | ⟨p1, p2, hne1, hne2, rfl, hsuf, hpre⟩
  · exact Or.inl h1
  · exact Or.inr h1
  · exfalso
    cases p2 with
    | nil => exact hne2 rfl
    | cons v p2' =>
      obtain ⟨t, rfl⟩ := hpre
      simp at hb
      exact hc (List.mem_append.mpr (Or.inr (by simp [hb])))

theorem stripLineCommentsGo_id {s : List Char} (h : ¬ "--".data <:+: s) :
    stripLineCommentsGo false s = s := by
  induction s with
  | nil => rw [stripLineCommentsGo]
  | cons c rest ih =>
    rw [stripLineCommentsGo]
    have hcond : ¬(c = '-' ∧ rest.head? = some '-') := by
      rintro ⟨rfl, hh⟩
      cases rest with
      | nil => simp at hh
      | cons d rest' =>
        simp at hh
        subst hh
        exact h ⟨[], rest', rfl⟩
    rw [if_neg hcond]
    have : ¬ "--".data <:+: rest := fun hh => h (List.infix_cons hh)
    rw [ih this]

theorem stripLineComments_id {s : List Char} (h : ¬ "--".data <:+: s) :
    stripLineComments s = s := stripLineCommentsGo_id h

theorem stripBlockComments_id {s : List Char} (h : ¬ "/*".data <:+: s) :
    stripBlockComments s = s := by
  induction s with
  | nil => rw [stripBlockComments]
  | cons c rest ih =>
    rw [stripBlockComments]
    have hcond : ¬(c = '/' ∧ rest.head? = some '*') := by
      rintro ⟨rfl, hh⟩
      cases rest with
      | nil => simp at hh
      | cons d rest' =>
        simp at hh
        subst hh
        exact h ⟨[], rest', rfl⟩
    rw [if_neg hcond]
    have : ¬ "/*".data <:+: rest := fun hh => h (List.infix_cons hh)
    rw [ih this]

theorem sepOKb_spec {s : List Char} (h : sepOKb s = true) :
    ¬ ("create".data <:+: lowerStr s) ∧ ¬ ("--".data <:+: s) ∧
      ¬ ("/*".data <:+: s) := by
  simp only [sepOKb, Bool.and_eq_true, Bool.not_eq_true'] at h
  exact ⟨(not_containsSeq_iff _ _).mp h.1.1, (not_containsSeq_iff _ _).mp h.1.2,
    (not_containsSeq_iff _ _).mp h.2⟩

theorem nameOKb_spec {n : List Char} (h : nameOKb n = true) :
    n ≠ [] ∧ ∀ c ∈ n, identChar c = true := by
  simp only [nameOKb, Bool.and_eq_true, Bool.not_eq_true', List.all_eq_true] at h
  exact ⟨by simpa [List.isEmpty_iff] using h.1, fun c hc => h.2 c hc⟩

theorem bodyOKb_spec {b : List Char} (h : bodyOKb b = true) :
    ¬ (");".data <:+: b) ∧ ¬ ("--".data <:+: b) ∧ ¬ ("/*".data <:+: b) := by
  simp only [bodyOKb, Bool.and_eq_true, Bool.not_eq_true'] at h
  exact ⟨(not_containsSeq_iff _ _).mp h.1.1, (not_containsSeq_iff _ _).mp h.1.2,
    (not_containsSeq_iff _ _).mp h.2⟩

theorem identList_no_pair {x y : Char} {n : List Char} (hx : identChar x = false)
    (hn : ∀ c ∈ n, identChar c = true) : ¬ [x, y] <:+: n := by
  intro h
  have : x ∈ n := h.subset (by simp)
  rw [hn x this] at hx
  cases hx

theorem identList_getLast {n : List Char} (hne : n ≠ [])
    (hn : ∀ c ∈ n, identChar c = true) :
    ∃ w, n.getLast? = some w ∧ identChar w = true := by
  refine ⟨n.getLast hne, List.getLast?_eq_getLast _ _, hn _ (List.getLast_mem _)⟩

theorem stmtText_no_pair {x y : Char} {n b : List Char}
    (hident : identChar x = false) (hxp : x ≠ '(') (hyp2 : y ≠ ')') (hxs : x ≠ ' ')
    (hA : ¬ [x, y] <:+: "CREATE TABLE ".data)
    (hB : ¬ [x, y] <:+: " (".data)
    (hC : ¬ [x, y] <:+: ");".data)
    (hn : nameOKb n = true) (hb : ¬ [x, y] <:+: b) :
    ¬ [x, y] <:+: stmtText n b := by
  obtain ⟨hne, hid⟩ := nameOKb_spec hn
  unfold stmtText
  apply noPairInfixAppend
  · apply noPairInfixAppend
    · apply noPairInfixAppend
      · apply noPairInfixAppend
        · exact hA
        · exact identList_no_pair hident hid
        · intro hlast _
          have : "CREATE TABLE ".data.getLast? = some ' ' := by rfl
          rw [this] at hlast
          cases hlast
          exact hxs rfl
      · exact hB
      · intro hlast hhead
        obtain ⟨w, hw1, hw2⟩ := identList_getLast hne hid
        rw [List.getLast?_append, hw1] at hlast
        simp at hlast
        rw [← hlast] at hident
        rw [hw2] at hident
        cases hident
    · exact hb
    · intro hlast _
      rw [List.getLast?_append] at hlast
      have : " (".data.getLast? = some '(' := by rfl
      rw [this] at hlast
      simp at hlast
      exact hxp hlast.symm
  · exact hC
  · intro _ hhead
    have : ");".data.head? = some ')' := by rfl
    rw [this] at hhead
    simp at hhead
    exact hyp2 hhead.symm

theorem ident_not_ws {c : Char} (h : identChar c = true) : isPyWs c = false := by
  by_contra hw
  have hw' : isPyWs c = true := by
    cases hws : isPyWs c
    · exact absurd hws hw
    · rfl
  simp only [isPyWs, Bool.or_eq_true, decide_eq_true_eq] at hw'
  rcases hw' with ((((rfl | rfl) | rfl) | rfl) | rfl) | rfl <;>
    exact absurd h (by decide)

theorem ident_not_btick {c : Char} (h : identChar c = true) : c ≠ btick := by
  rintro rfl
  revert h
  decide

theorem dropCI_create (X : List Char) :
    dropCI "create".data ("CREATE TABLE ".data ++ X) = some (" TABLE ".data ++ X) := rfl

theorem skipWs1_tableLit (X : List Char) :
    skipWs1 (" TABLE ".data ++ X) = some ("TABLE ".data ++ X) := rfl

theorem dropCI_table (X : List Char) :
    dropCI "table".data ("TABLE ".data ++ X) = some (' ' :: X) := rfl

theorem expectLParen_spaceParen (W : List Char) :
    expectLParen (' ' :: '(' :: W) = some W := rfl

theorem skipWs1_cons_space {c : Char} {X : List Char} (hc : isPyWs c = false) :
    skipWs1 (' ' :: c :: X) = some (c :: X) := by
  unfold skipWs1
  have h1 : isPyWs ' ' = true := rfl
  rw [List.takeWhile_cons, List.dropWhile_cons]
  simp [hc, h1, List.takeWhile_cons, List.dropWhile_cons]

theorem skipBtick_cons {c : Char} {X : List Char} (hc : c ≠ btick) :
    skipBtick (c :: X) = c :: X := by
  simp [skipBtick, hc]

theorem takeIdent_name {n Y : List Char} (hne : n ≠ [])
    (hid : ∀ c ∈ n, identChar c = true) (hY : Y.head? = some ' ') :
    takeIdent (n ++ Y) = some (n, Y) := by
  have hsp : identChar ' ' = false := rfl
  have htY : Y.takeWhile identChar = [] := by
    cases Y with
    | nil => rfl
    | cons y Y' =>
      simp at hY
      subst hY
      rw [List.takeWhile_cons, hsp]
      simp
  have hdY : Y.dropWhile identChar = Y := by
    cases Y with
    | nil => rfl
    | cons y Y' =>
      simp at hY
      subst hY
      rw [List.dropWhile_cons, hsp]
      simp
  unfold takeIdent
  rw [List.takeWhile_append_of_pos hid, List.dropWhile_append_of_pos hid, htY, hdY]
  simp [hne]

theorem splitCloseParen_append {b : List Char} (hb : ¬ ");".data <:+: b) :
    ∀ t, splitCloseParen (b ++ ')' :: ';' :: t) = some (b, t) := by
  induction b with
  | nil =>
    intro t
    rw [List.nil_append, splitCloseParen]
    simp
  | cons c b' ih =>
    intro t
    simp only [List.cons_append, List.nil_append]
    cases b' with
    | nil =>
      have hcond : ¬(c = ')' ∧ ')' = ';') := by
        rintro ⟨-, hsc⟩
        cases hsc
      simp only [List.nil_append]
      rw [splitCloseParen.eq_3, if_neg hcond, splitCloseParen.eq_3]
      simp
    | cons d b'' =>
      have hcond : ¬(c = ')' ∧ d = ';') := by
        rintro ⟨rfl, rfl⟩
        exact hb ⟨[], b'', rfl⟩
      have hb' : ¬ ");".data <:+: d :: b'' := fun hh => hb (List.infix_cons hh)
      have hrec := ih hb' t
      simp only [List.cons_append] at hrec ⊢
      rw [splitCloseParen.eq_3, if_neg hcond, hrec]
      simp

theorem takeIdent_name_cons {nh : Char} {nt Y : List Char}
    (hid : ∀ c ∈ nh :: nt, identChar c = true) (hY : Y.head? = some ' ') :
    takeIdent (nh :: (nt ++ Y)) = some (nh :: nt, Y) := by
  have h := @takeIdent_name (nh :: nt) Y (by simp) hid hY
  simpa using h

theorem tryMatch_stmt {n b t : List Char} (hn : nameOKb n = true)
    (hb : ¬ ");".data <:+: b) :
    tryMatch (stmtText n b ++ t) = some (n, b, t) := by
  obtain ⟨hne, hid⟩ := nameOKb_spec hn
  cases n with
  | nil => exact absurd rfl hne
  | cons nh nt =>
    have hnh : identChar nh = true := hid nh (by simp)
    have hnhws : isPyWs nh = false := ident_not_ws hnh
    have hnhbt : nh ≠ btick := ident_not_btick hnh
    have hA : " (".data = [' ', '('] := rfl
    have hB : ");".data = [')', ';'] := rfl
    have e1 : stmtText (nh :: nt) b ++ t =
        "CREATE TABLE ".data ++
          (nh :: (nt ++ (' ' :: '(' :: (b ++ ')' :: ';' :: t)))) := by
      simp [stmtText, hA, hB]
    unfold tryMatch
    rw [e1]
    rw [dropCI_create]
    simp only [Option.some_bind]
    rw [skipWs1_tableLit]
    simp only [Option.some_bind]
    rw [dropCI_table]
    simp only [Option.some_bind]
    rw [skipWs1_cons_space hnhws]
    simp only [Option.some_bind]
    rw [skipBtick_cons hnhbt]
    rw [takeIdent_name_cons hid
      (show (' ' :: '(' :: (b ++ ')' :: ';' :: t)).head? = some ' ' from rfl)]
    simp only [Option.some_bind]
    rw [skipBtick_cons (by decide)]
    rw [expectLParen_spaceParen]
    simp only [Option.some_bind]
    rw [splitCloseParen_append hb t]
    simp

theorem tryMatch_none {s : List Char} (h : ¬ ("create".data <+: lowerStr s)) :
    tryMatch s = none := by
  have hb : "create".data.isPrefixOf (lowerStr s) = false := by
    cases hx : "create".data.isPrefixOf (lowerStr s)
    · rfl
    · exact absurd (List.isPrefixOf_iff_prefix.mp hx) h
  unfold tryMatch dropCI
  rw [hb]
  simp

theorem notCreatePrefixAppend {sep t : List Char} (hne : sep ≠ [])
    (hs : ¬ ("create".data <:+: lowerStr sep))
    (ht : t.head? = some 'C' ∨ t = []) :
    ¬ ("create".data <+: lowerStr (sep ++ t)) := by
  intro hp
  rw [lowerStr_append] at hp
  rcases prefixAppendCases hp with h1 | ⟨p2, hp2eq, hp2⟩
  · exact hs h1.isInfix
  · rcases eq_or_ne p2 [] with rfl | hne2
    · apply hs
      rw [List.append_nil] at hp2eq
      rw [← hp2eq]
    · have htne : t ≠ [] := by
        rintro rfl
        simp [lowerStr] at hp2
        exact hne2 hp2
      have hC : t.head? = some 'C' := ht.resolve_right htne
      have hp2head : p2.head? = some 'c' := by
        obtain ⟨r, hr⟩ := hp2
        have h1 : (lowerStr t).head? = some 'c' := by
          cases t with
          | nil => exact absurd rfl htne
          | cons c0 t' =>
            simp at hC
            subst hC
            rfl
        rw [← hr] at h1
        cases p2 with
        | nil => exact absurd rfl hne2
        | cons v p2' => simpa using h1
      have hk1 : 1 ≤ sep.length := by
        cases sep
        · exact absurd rfl hne
        · simp
      have hk2 : sep.length < 6 := by
        have hlen := congrArg List.length hp2eq
        simp [lowerStr] at hlen
        have hp2len : 1 ≤ p2.length := by
          cases p2
          · exact absurd rfl hne2
          · simp
        omega
      have hget : ("create".data)[sep.length]? = some 'c' := by
        rw [hp2eq]
        have hlsep : (lowerStr sep).length = sep.length := by simp [lowerStr]
        rw [List.getElem?_append_right (by rw [hlsep])]
        rw [hlsep, Nat.sub_self, ← List.head?_eq_getElem?]
        exact hp2head
      have hk' : sep.length = 1 ∨ sep.length = 2 ∨ sep.length = 3 ∨
          sep.length = 4 ∨ sep.length = 5 := by omega
      rcases hk' with hk | hk | hk | hk | hk <;> rw [hk] at hget <;>
        exact absurd hget (by decide)

theorem tryMatch_nil : tryMatch [] = none := by
  apply tryMatch_none
  simp [lowerStr]

theorem findBlocks_nil : findBlocks [] = [] := by
  rw [findBlocks.eq_def]
  split
  · rename_i r heq
    rw [tryMatch_nil] at heq
    cases heq
  · rfl

theorem findBlocks_cons_none {c : Char} {t : List Char}
    (h : tryMatch (c :: t) = none) : findBlocks (c :: t) = findBlocks t := by
  rw [findBlocks.eq_def]
  split
  · rename_i r heq
    rw [h] at heq
    cases heq
  · rfl

theorem findBlocks_some {s n b r : List Char} (h : tryMatch s = some (n, b, r)) :
    findBlocks s = (n, b) :: findBlocks r := by
  rw [findBlocks.eq_def]
  split
  · rename_i r' heq
    rw [h] at heq
    cases heq
    rfl
  · rename_i heq
    cases s with
    | nil => rw [tryMatch_nil] at h; cases h
    | cons c t =>
      rw [h] at heq
      cases heq

theorem findBlocks_sep {t : List Char} (ht : t.head? = some 'C' ∨ t = []) :
    ∀ {sep : List Char}, ¬ ("create".data <:+: lowerStr sep) →
      findBlocks (sep ++ t) = findBlocks t := by
  intro sep
  induction sep with
  | nil => intro _; rw [List.nil_append]
  | cons c sep' ih =>
    intro hs
    have hnone : tryMatch ((c :: sep') ++ t) = none :=
      tryMatch_none (notCreatePrefixAppend (by simp) hs ht)
    rw [List.cons_append] at hnone ⊢
    rw [findBlocks_cons_none hnone]
    apply ih
    intro hh
    apply hs
    have : lowerStr (c :: sep') = lowerChar c :: lowerStr sep' := rfl
    rw [this]
    exact List.infix_cons hh

theorem stmtText_append_head (n b X : List Char) :
    (stmtText n b ++ X).head? = some 'C' := by
  have hhd : "CREATE TABLE ".data.head? = some 'C' := rfl
  simp [stmtText, hhd]

theorem stmtText_getLast (n b : List Char) :
    (stmtText n b).getLast? = some ';' := by
  unfold stmtText
  rw [List.getLast?_append]
  rfl

theorem renderStmts_no_pair (x y : Char)
    (hident : identChar x = false) (hxp : x ≠ '(') (hyp2 : y ≠ ')') (hxs : x ≠ ' ')
    (hxsemi : x ≠ ';') (hyC : y ≠ 'C')
    (hA : ¬ [x, y] <:+: "CREATE TABLE ".data)
    (hB : ¬ [x, y] <:+: " (".data)
    (hC : ¬ [x, y] <:+: ");".data) :
    ∀ {entries : List (List Char × List Char × List Char)} {fin : List Char},
      (∀ e ∈ entries, entryOKb e = true) →
      (∀ e ∈ entries, ¬ [x, y] <:+: e.1) →
      (∀ e ∈ entries, ¬ [x, y] <:+: e.2.2) →
      ¬ [x, y] <:+: fin →
      ¬ [x, y] <:+: renderStmts entries fin := by
  intro entries
  induction entries with
  | nil =>
    intro fin _ _ _ hfin
    rw [renderStmts]
    exact hfin
  | cons e rest ih =>
    intro fin hall hsep hbody hfin
    rw [renderStmts, List.append_assoc]
    refine noPairInfixAppend (hsep e (by simp)) ?_ ?_
    · refine noPairInfixAppend ?_ ?_ ?_
      · have he := hall e (by simp)
        simp only [entryOKb, Bool.and_eq_true] at he
        exact stmtText_no_pair hident hxp hyp2 hxs hA hB hC he.1.2
          (hbody e (by simp))
      · exact ih (fun e' h' => hall e' (by simp [h']))
          (fun e' h' => hsep e' (by simp [h']))
          (fun e' h' => hbody e' (by simp [h'])) hfin
      · intro hlast _
        rw [stmtText_getLast] at hlast
        cases hlast
        exact hxsemi rfl
    · intro _ hhead
      rw [stmtText_append_head] at hhead
      cases hhead
      exact hyC rfl

theorem findBlocks_render {entries : List (List Char × List Char × List Char)}
    {fin : List Char} (hall : ∀ e ∈ entries, entryOKb e = true)
    (hfin : sepOKb fin = true) :
    findBlocks (renderStmts entries fin) = entries.map (fun e => (e.2.1, e.2.2)) := by
  induction entries with
  | nil =>
    rw [renderStmts]
    have h := findBlocks_sep (Or.inr rfl) (sepOKb_spec hfin).1
    rw [List.append_nil] at h
    rw [h, findBlocks_nil]
    rfl
  | cons e rest ih =>
    have he := hall e (by simp)
    have hrest : ∀ e' ∈ rest, entryOKb e' = true := fun e' h' => hall e' (by simp [h'])
    simp only [entryOKb, Bool.and_eq_true] at he
    rw [renderStmts, List.append_assoc]
    rw [findBlocks_sep (Or.inl (stmtText_append_head _ _ _)) (sepOKb_spec he.1.1).1]
    rw [findBlocks_some (tryMatch_stmt he.1.2 (bodyOKb_spec he.2).1)]
    rw [ih hrest]
    simp

theorem renderStmts_no_dashdash {entries : List (List Char × List Char × List Char)}
    {fin : List Char} (hall : ∀ e ∈ entries, entryOKb e = true)
    (hfin : sepOKb fin = true) :
    ¬ "--".data <:+: renderStmts entries fin := by
  have h := renderStmts_no_pair '-' '-' (by decide) (by decide) (by decide)
    (by decide) (by decide) (by decide) (by decide) (by decide) (by decide)
    hall
    (fun e h' => by
      have := (sepOKb_spec (by
        have := hall e h'
        simp only [entryOKb, Bool.and_eq_true] at this
        exact this.1.1)).2.1
      exact this)
    (fun e h' => by
      have := (bodyOKb_spec (by
        have := hall e h'
        simp only [entryOKb, Bool.and_eq_true] at this
        exact this.2)).2.1
      exact this)
    ((sepOKb_spec hfin).2.1)
  exact h

theorem renderStmts_no_blockopen {entries : List (List Char × List Char × List Char)}
    {fin : List Char} (hall : ∀ e ∈ entries, entryOKb e = true)
    (hfin : sepOKb fin = true) :
    ¬ "/*".data <:+: renderStmts entries fin := by
  have h := renderStmts_no_pair '/' '*' (by decide) (by decide) (by decide)
    (by decide) (by decide) (by decide) (by decide) (by decide) (by decide)
    hall
    (fun e h' => by
      have := (sepOKb_spec (by
        have := hall e h'
        simp only [entryOKb, Bool.and_eq_true] at this
        exact this.1.1)).2.2
      exact this)
    (fun e h' => by
      have := (bodyOKb_spec (by
        have := hall e h'
        simp only [entryOKb, Bool.and_eq_true] at this
        exact this.2)).2.2
      exact this)
    ((sepOKb_spec hfin).2.2)
  exact h

theorem extract_render {entries : List (List Char × List Char × List Char)}
    {fin : List Char} (hall : ∀ e ∈ entries, entryOKb e = true)
    (hfin : sepOKb fin = true) :
    extractCreateTableBlocks (renderStmts entries fin) =
      entries.map (fun e => mkChunk e.2.1 e.2.2) := by
  unfold extractCreateTableBlocks
  rw [stripLineComments_id (renderStmts_no_dashdash hall hfin),
    stripBlockComments_id (renderStmts_no_blockopen hall hfin),
    findBlocks_render hall hfin]
  simp

/-- C3: whenever the index backend reports at least one existing vector,
`_ensure_index_populated` performs no embedding and no upsert call; and
after one population run over a non-empty chunk list, a second run
performs zero upserts. -/
theorem ensure_populated_idempotent (count : Nat) (chunks : List SchemaChunk) :
    (1 ≤ count → ensureIndexPopulated count chunks = (count, 0, 0)) ∧
    (chunks ≠ [] →
      (ensureIndexPopulated (ensureIndexPopulated count chunks).1 chunks).2.2 = 0) := by
  constructor
  · intro h
    unfold ensureIndexPopulated
    rw [if_pos (by omega)]
  · intro h
    by_cases hc : 0 < count
    · unfold ensureIndexPopulated
      rw [if_pos hc]
      simp [hc]
    · have hpos : 0 < ((chunks.map SchemaChunk.id).dedup).length := by
        rw [List.length_pos]
        intro hd
        rw [List.dedup_eq_nil] at hd
        exact h (by simpa using hd)
      unfold ensureIndexPopulated
      rw [if_neg hc]
      simp [hpos]

/-- Witness for C3 at a concrete input: a backend holding one vector and
a singleton chunk list. -/
theorem ensure_populated_idempotent_witness :
    (1 ≤ 1 → ensureIndexPopulated 1 [SchemaChunk.mk ['t'] ['x']] = (1, 0, 0)) ∧
    ([SchemaChunk.mk ['t'] ['x']] ≠ ([] : List SchemaChunk) →
      (ensureIndexPopulated
        (ensureIndexPopulated 1 [SchemaChunk.mk ['t'] ['x']]).1
        [SchemaChunk.mk ['t'] ['x']]).2.2 = 0) :=
  ensure_populated_idempotent 1 [SchemaChunk.mk ['t'] ['x']]

/-- C4: prompt construction in `generate_sql` is deterministic; for equal
question, chunks, roster id and client id, the system/user prompt pair
is identical. -/
theorem prompt_determinism (q1 q2 : List Char) (c1 c2 : List PromptChunk)
    (r1 r2 cl1 cl2 : Option Int) (hq : q1 = q2) (hc : c1 = c2) (hr : r1 = r2)
    (hcl : cl1 = cl2) :
    generateSqlPrompts q1 c1 r1 cl1 = generateSqlPrompts q2 c2 r2 cl2 := by
  subst hq
  subst hc
  subst hr
  subst hcl
  rfl

/-- Witness for C4 at a concrete input. -/
theorem prompt_determinism_witness :
    generateSqlPrompts ['q'] [] (some 7) none =
      generateSqlPrompts ['q'] [] (some 7) none :=
  prompt_determinism ['q'] ['q'] [] [] (some 7) (some 7) none none rfl rfl rfl rfl

/-- C10: the optional scoping parameters (and the chunks) affect only the
system prompt; the user prompt depends on the question alone. -/
theorem user_prompt_frame (q : List Char) (c1 c2 : List PromptChunk)
    (r1 r2 cl1 cl2 : Option Int) :
    (generateSqlPrompts q c1 r1 cl1).2 = (generateSqlPrompts q c2 r2 cl2).2 := rfl

/-- C7 counterexample: sanitizing the fenced response leaves a trailing
newline, so the result is not exactly the bare statement. -/
theorem sanitize_fence_counterexample :
    sanitizeSql "```sql\nSELECT 1;\n```".data = "SELECT 1;\n".data ∧
      "SELECT 1;\n".data ≠ "SELECT 1;".data := by
  constructor
  · decide
  · decide

/-- C7 amended: sanitizing the fenced response removes the fences, the
language tag and the whitespace right after the tag, and yields the
statement with its trailing newline retained. -/
theorem sanitize_fenced_select :
    sanitizeSql "```sql\nSELECT 1;\n```".data = "SELECT 1;\n".data := by
  decide

/-- C9 counterexample: the stripped body line `PRIMARY KEY (id)` contains
the substring `primary key` (case-insensitively), yet extraction
classifies it as a column line, because the code looks for `" primary
key"` with a leading space. -/
theorem constraint_classification_counterexample :
    classifyLines ["PRIMARY KEY (id)".data] = (["PRIMARY KEY (id)".data], []) ∧
      "primary key".data <:+: lowerStr "PRIMARY KEY (id)".data := by
  constructor
  · decide
  · decide

/-- C9 amended: a non-blank body line is classified as a constraint line
iff, case-insensitively, it contains `" primary key"` or `" foreign
key"` with a leading space, or starts with `constraint`, `unique`,
`index`, or `key ` with a trailing space; classification partitions the
lines in order, stripping trailing commas. -/
theorem constraint_classification (lines : List (List Char)) :
    (classifyLines lines =
      ((lines.filter (fun l => !isConstraintLine l)).map rstripCommas,
        (lines.filter (fun l => isConstraintLine l)).map rstripCommas)) ∧
    (∀ l : List Char, isConstraintLine l = true ↔
      (" primary key".data <:+: lowerStr l ∨ " foreign key".data <:+: lowerStr l ∨
        "constraint".data <+: lowerStr l ∨ "unique".data <+: lowerStr l ∨
        "index".data <+: lowerStr l ∨ "key ".data <+: lowerStr l)) := by
  constructor
  · induction lines with
    | nil => rfl
    | cons l rest ih =>
      rw [classifyLines]
      cases hc : isConstraintLine l <;>
        simp [List.filter_cons, hc, ih, Prod.ext_iff]
  · intro l
    simp only [isConstraintLine, Bool.or_eq_true, containsSeq_iff_infix,
      List.isPrefixOf_iff_prefix]
    tauto

/-- C8: when a body yields strictly more than 40 column lines, the
compact rendering keeps exactly the first 40 followed by one truncation
marker line; strictly more than 15 constraint lines are capped to the
first 15 plus one marker line. -/
theorem column_constraint_caps (body : List Char) :
    (40 < (classifyLines (bodyLines body)).1.length →
      compactLines body = (classifyLines (bodyLines body)).1.take 40 ++
        colTruncMarker :: capConstraints (classifyLines (bodyLines body)).2) ∧
    (15 < (classifyLines (bodyLines body)).2.length →
      compactLines body = capColumns (classifyLines (bodyLines body)).1 ++
        ((classifyLines (bodyLines body)).2.take 15 ++ [consTruncMarker])) := by
  constructor
  · intro h
    simp only [compactLines, capColumns]
    rw [if_pos h]
    simp
  · intro h
    simp only [compactLines, capConstraints]
    rw [if_pos h]

/-- A body of 41 one-character lines, witnessing the column cap. -/
def body41 : List Char := pyJoin ['\n'] (List.replicate 41 ['a'])

/-- Witness for C8: a body with 41 column-classified lines keeps the
first 40 plus the marker. -/
theorem column_constraint_caps_witness :
    (40 < (classifyLines (bodyLines body41)).1.length) ∧
    compactLines body41 = (classifyLines (bodyLines body41)).1.take 40 ++
      colTruncMarker :: capConstraints (classifyLines (bodyLines body41)).2 :=
  ⟨by decide, (column_constraint_caps body41).1 (by decide)⟩

set_option maxRecDepth 20000 in
/-- C6 counterexample: with no chunks the schema-context block is the
empty string, and no `no schema context` marker appears anywhere in the
system prompt. -/
theorem empty_context_counterexample :
    chunksToText [] = [] ∧
      containsSeq "no schema context".data (systemPromptText [] none none) = false := by
  constructor
  · rfl
  · decide

/-- C6 amended: the schema-context block is the chunk texts joined with
a blank-line separator; when every chunk has a non-empty text the joined
texts are exactly the chunks' own texts, and the empty chunk list yields
the empty string (no marker is inserted). -/
theorem chunks_to_text_join (chunks : List PromptChunk)
    (h : ∀ e ∈ chunks, plainChunkText e ≠ []) :
    chunksToText chunks = pyJoin "\n\n".data (chunks.map plainChunkText) ∧
      chunksToText [] = [] := by
  refine ⟨?_, rfl⟩
  unfold chunksToText
  congr 1
  apply List.map_congr_left
  intro e he
  cases e with
  | str s => rfl
  | chunk ch =>
    have hne := h _ he
    simp only [plainChunkText] at hne
    simp [promptChunkText, plainChunkText, List.isEmpty_iff, hne]

/-- Witness for C6 at a concrete chunk list. -/
theorem chunks_to_text_join_witness :
    (∀ e ∈ [PromptChunk.chunk (SchemaChunk.mk ['t'] ['x'])], plainChunkText e ≠ []) ∧
    (chunksToText [PromptChunk.chunk (SchemaChunk.mk ['t'] ['x'])] =
      pyJoin "\n\n".data
        ([PromptChunk.chunk (SchemaChunk.mk ['t'] ['x'])].map plainChunkText) ∧
      chunksToText [] = []) :=
  ⟨by decide, chunks_to_text_join [PromptChunk.chunk (SchemaChunk.mk ['t'] ['x'])]
    (by decide)⟩

set_option maxRecDepth 40000 in
/-- C5 counterexample: with both scoping parameters absent the system
prompt never mentions rosters or clients at all, so it does not state
that no roster filter applies, nor forbid a tenant filter. -/
theorem scoping_absent_counterexample :
    containsSeq "roster".data (lowerStr (systemPromptText [] none none)) = false ∧
      containsSeq "client".data (lowerStr (systemPromptText [] none none)) = false := by
  constructor
  · decide
  · decide

theorem infix_of_infix_middle {p m x y : List Char} (h : p <:+: m) :
    p <:+: (x ++ m) ++ y := by
  have h2 : m <:+: (x ++ m) ++ y := by
    have h3 := List.infix_append x m y
    simpa [List.append_assoc] using h3
  exact h.trans h2

theorem mem_pyJoin_inf {sep : List Char} :
    ∀ {ts : List (List Char)} {t : List Char}, t ∈ ts → t <:+: pyJoin sep ts := by
  intro ts
  induction ts with
  | nil => intro t h; simp at h
  | cons x rest ih =>
    intro t h
    cases rest with
    | nil =>
      simp at h
      subst h
      rw [pyJoin]
    | cons y r2 =>
      rw [pyJoin]
      rcases List.mem_cons.mp h with rfl | h2
      · have hp : t <+: (t ++ sep) ++ pyJoin sep (y :: r2) := by
          have := List.prefix_append t (sep ++ pyJoin sep (y :: r2))
          simpa [List.append_assoc] using this
        exact hp.isInfix
      · have hs : pyJoin sep (y :: r2) <:+ (x ++ sep) ++ pyJoin sep (y :: r2) :=
          List.suffix_append _ _
        exact (ih h2).trans hs.isInfix

theorem pyLstrip_append {a : List Char} (ha : (a.dropWhile isPyWs).isEmpty = false)
    (b : List Char) : pyLstrip (a ++ b) = pyLstrip a ++ b := by
  unfold pyLstrip
  rw [List.dropWhile_append, ha]
  simp

theorem dropWhile_ne_nil_of_mem {p : Char → Bool} {l : List Char} {c : Char}
    (hc : c ∈ l) (hp : p c = false) : l.dropWhile p ≠ [] := by
  intro hnil
  induction l with
  | nil => simp at hc
  | cons d rest ih =>
    rw [List.dropWhile_cons] at hnil
    by_cases hd : p d = true
    · rw [if_pos hd] at hnil
      rcases List.mem_cons.mp hc with rfl | h2
      · rw [hd] at hp; cases hp
      · exact ih h2 hnil
    · rw [if_neg hd] at hnil
      cases hnil

theorem pyRstrip_append {y : List Char} {c : Char} (hc : c ∈ y)
    (hw : isPyWs c = false) (x : List Char) :
    pyRstrip (x ++ y) = x ++ pyRstrip y := by
  unfold pyRstrip
  rw [List.reverse_append, List.dropWhile_append]
  have hne : (y.reverse.dropWhile isPyWs).isEmpty = false := by
    have := dropWhile_ne_nil_of_mem (List.mem_reverse.mpr hc) hw
    simpa [List.isEmpty_iff] using this
  rw [hne]
  simp

theorem pyRstrip_pref (s : List Char) : pyRstrip s <+: s := by
  unfold pyRstrip
  have h : List.dropWhile isPyWs s.reverse <:+ s.reverse :=
    List.dropWhile_suffix isPyWs
  have h2 := h.reverse
  simpa using h2

theorem pyStrip_infix (s : List Char) : pyStrip s <:+: s := by
  unfold pyStrip
  exact (pyRstrip_pref (pyLstrip s)).isInfix.trans
    (List.dropWhile_suffix isPyWs).isInfix

theorem lowerStr_pyJoin (sep : List Char) :
    ∀ ts : List (List Char),
      lowerStr (pyJoin sep ts) = pyJoin (lowerStr sep) (ts.map lowerStr) := by
  intro ts
  induction ts with
  | nil => rfl
  | cons x rest ih =>
    cases rest with
    | nil => rfl
    | cons y r2 =>
      rw [pyJoin, List.map_cons, List.map_cons, pyJoin]
      rw [lowerStr_append, lowerStr_append]
      rw [List.map_cons] at ih
      rw [ih]

theorem not_infix_pyJoin_blank {p : List Char} (hp : p ≠ []) (hnl : '\n' ∉ p) :
    ∀ {ts : List (List Char)}, (∀ t ∈ ts, ¬ p <:+: t) →
      ¬ p <:+: pyJoin "\n\n".data ts := by
  intro ts
  induction ts with
  | nil =>
    intro _ hinf
    rw [pyJoin] at hinf
    exact hp (List.infix_nil.mp hinf)
  | cons x rest ih =>
    intro h hinf
    cases rest with
    | nil =>
      rw [pyJoin] at hinf
      exact h x (by simp) hinf
    | cons y r2 =>
      rw [pyJoin] at hinf
      have hlast : (x ++ "\n\n".data).getLast? = some '\n' := by
        rw [List.getLast?_append]
        rfl
      rcases infixAppendElimLast hnl hlast hinf with h1 | h1
      · have hhead : "\n\n".data.head? = some '\n' := rfl
        rcases infixAppendElimHead hnl hhead h1 with h2 | h2
        · exact h x (by simp) h2
        · cases p with
          | nil => exact hp rfl
          | cons c0 p' =>
            have hc0 : c0 ∈ "\n\n".data := h2.subset (by simp)
            have heq2 : "\n\n".data = ['\n', '\n'] := rfl
            rw [heq2] at hc0
            have : c0 = '\n' := by simpa using hc0
            subst this
            exact hnl (by simp)
      · exact ih (fun t ht => h t (by simp [ht])) h1

set_option maxRecDepth 100000 in
theorem systemPrompt_decomp (chunks : List PromptChunk) (r c : Option Int) :
    systemPromptText chunks r c =
      (pyLstrip sysPromptHeader ++ scopeInstructions r c) ++
        pyRstrip (sysPromptMid ++ (chunksToText chunks ++ "\n".data)) := by
  unfold systemPromptText pyStrip
  have heq : sysPromptHeader ++ scopeInstructions r c ++ sysPromptMid ++
      chunksToText chunks ++ "\n".data =
      sysPromptHeader ++ (scopeInstructions r c ++ (sysPromptMid ++
        (chunksToText chunks ++ "\n".data))) := by
    simp [List.append_assoc]
  rw [heq, pyLstrip_append (by decide)]
  have hgroup : pyLstrip sysPromptHeader ++
      (scopeInstructions r c ++ (sysPromptMid ++ (chunksToText chunks ++ "\n".data))) =
      (pyLstrip sysPromptHeader ++ scopeInstructions r c) ++
        (sysPromptMid ++ (chunksToText chunks ++ "\n".data)) := by
    simp [List.append_assoc]
  rw [hgroup]
  rw [pyRstrip_append (List.mem_append.mpr (Or.inl (by decide : 'D' ∈ sysPromptMid)))
    (by decide)]

theorem mention_in_prompt {clause mention : List Char} {chunks : List PromptChunk}
    {r c : Option Int} (hmem : clause ∈ scopeLines r c) (hpre : mention <+: clause) :
    mention <:+: systemPromptText chunks r c := by
  rw [systemPrompt_decomp]
  exact infix_of_infix_middle (hpre.isInfix.trans (mem_pyJoin_inf hmem))

set_option maxRecDepth 100000 in
theorem no_mention_of_absent {p : List Char} (hp : p ≠ []) (hnl : '\n' ∉ p)
    (hA : containsSeq p
      (lowerStr ((sysPromptHeader ++ scopeInstructions none none) ++ sysPromptMid)) =
        false)
    {chunks : List PromptChunk}
    (hch : ∀ e ∈ chunks, ¬ p <:+: lowerStr (promptChunkText e)) :
    ¬ p <:+: lowerStr (systemPromptText chunks none none) := by
  intro hinf
  have hsub : systemPromptText chunks none none <:+:
      sysPromptHeader ++ scopeInstructions none none ++ sysPromptMid ++
        chunksToText chunks ++ "\n".data := by
    unfold systemPromptText
    exact pyStrip_infix _
  have hregroup : sysPromptHeader ++ scopeInstructions none none ++ sysPromptMid ++
      chunksToText chunks ++ "\n".data =
      ((sysPromptHeader ++ scopeInstructions none none) ++ sysPromptMid) ++
        (chunksToText chunks ++ "\n".data) := by
    simp [List.append_assoc]
  rw [hregroup] at hsub
  have h0 : p <:+: lowerStr
      (((sysPromptHeader ++ scopeInstructions none none) ++ sysPromptMid) ++
        (chunksToText chunks ++ "\n".data)) :=
    hinf.trans (hsub.map lowerChar)
  rw [lowerStr_append] at h0
  have hAlast : (lowerStr ((sysPromptHeader ++ scopeInstructions none none) ++
      sysPromptMid)).getLast? = some '\n' := by decide
  rcases infixAppendElimLast hnl hAlast h0 with h1 | h1
  · rw [not_containsSeq_iff] at hA
    exact hA h1
  · rw [lowerStr_append] at h1
    have hnlhead : (lowerStr "\n".data).head? = some '\n' := rfl
    rcases infixAppendElimHead hnl hnlhead h1 with h2 | h2
    · have hctx : lowerStr (chunksToText chunks) =
          pyJoin "\n\n".data ((chunks.map promptChunkText).map lowerStr) := by
        unfold chunksToText
        rw [lowerStr_pyJoin]
        rfl
      rw [hctx] at h2
      refine not_infix_pyJoin_blank hp hnl ?_ h2
      intro t ht
      obtain ⟨u, hu, rfl⟩ := List.mem_map.mp ht
      obtain ⟨e, he, rfl⟩ := List.mem_map.mp hu
      exact hch e he
    · cases p with
      | nil => exact hp rfl
      | cons c0 p' =>
        have hc0 : c0 ∈ lowerStr "\n".data := h2.subset (by simp)
        have heq2 : lowerStr "\n".data = ['\n'] := rfl
        rw [heq2] at hc0
        have : c0 = '\n' := by simpa using hc0
        subst this
        exact hnl (by simp)

set_option maxRecDepth 100000 in
set_option maxHeartbeats 4000000 in
/-- C5 amended: if `roster_id` is present the system prompt contains the
roster-scoping clause mentioning that value, and if `client_id` is
present it contains the tenant-scoping clause mentioning that value;
when both are absent no scoping statement about rosters or clients is
added at all: provided the retrieved chunk texts do not mention them,
the words roster and client do not occur in the system prompt (in
particular it does not state that no roster filter should be applied,
nor forbid a tenant filter). -/
theorem scoping_clauses (q : List Char) (chunks : List PromptChunk) (r c : Option Int) :
    (∀ n, r = some n →
      ("- The selected roster_id is ".data ++ intChars n) <:+:
        (generateSqlPrompts q chunks r c).1) ∧
    (∀ n, c = some n →
      ("- The selected client_id is ".data ++ intChars n) <:+:
        (generateSqlPrompts q chunks r c).1) ∧
    (r = none → c = none →
      (∀ e ∈ chunks, ¬ "roster".data <:+: lowerStr (promptChunkText e)) →
      ¬ "roster".data <:+: lowerStr (generateSqlPrompts q chunks r c).1) ∧
    (r = none → c = none →
      (∀ e ∈ chunks, ¬ "client".data <:+: lowerStr (promptChunkText e)) →
      ¬ "client".data <:+: lowerStr (generateSqlPrompts q chunks r c).1) := by
  refine ⟨?_, ?_, ?_, ?_⟩
  · rintro n rfl
    have hmem : rosterClause n ∈ scopeLines (some n) c := by
      unfold scopeLines
      exact List.mem_append.mpr (Or.inl (List.mem_append.mpr (Or.inr (by simp))))
    exact mention_in_prompt hmem
      ((List.prefix_append _ _).trans
        ((List.prefix_append _ _).trans (List.prefix_append _ _)))
  · rintro n rfl
    have hmem : clientClause n ∈ scopeLines r (some n) := by
      unfold scopeLines
      exact List.mem_append.mpr (Or.inr (by simp))
    exact mention_in_prompt hmem
      ((List.prefix_append _ _).trans
        ((List.prefix_append _ _).trans (List.prefix_append _ _)))
  · rintro rfl rfl hch
    exact no_mention_of_absent (by decide) (by decide) (by decide) hch
  · rintro rfl rfl hch
    exact no_mention_of_absent (by decide) (by decide) (by decide) hch

/-- Witness for C5 at a concrete input with both parameters absent and
no chunks. -/
theorem scoping_clauses_witness :
    (∀ n, (none : Option Int) = some n →
      ("- The selected roster_id is ".data ++ intChars n) <:+:
        (generateSqlPrompts ['q'] [] none none).1) ∧
    (∀ n, (none : Option Int) = some n →
      ("- The selected client_id is ".data ++ intChars n) <:+:
        (generateSqlPrompts ['q'] [] none none).1) ∧
    ((none : Option Int) = none → (none : Option Int) = none →
      (∀ e ∈ ([] : List PromptChunk),
        ¬ "roster".data <:+: lowerStr (promptChunkText e)) →
      ¬ "roster".data <:+: lowerStr (generateSqlPrompts ['q'] [] none none).1) ∧
    ((none : Option Int) = none → (none : Option Int) = none →
      (∀ e ∈ ([] : List PromptChunk),
        ¬ "client".data <:+: lowerStr (promptChunkText e)) →
      ¬ "client".data <:+: lowerStr (generateSqlPrompts ['q'] [] none none).1) :=
  scoping_clauses ['q'] [] none none

/-- C1: for every raw DDL text assembled from well-formed
`CREATE TABLE name (body);` statements (separators free of `CREATE` and
of comment markers, bodies free of the closer `);` and of comment
markers), extraction returns exactly one chunk per statement, in source
order, with each chunk's id equal to that statement's table name. -/
theorem extraction_wellformed_ids
    (entries : List (List Char × List Char × List Char)) (finalSep : List Char)
    (hall : ∀ e ∈ entries, entryOKb e = true) (hfin : sepOKb finalSep = true) :
    (extractCreateTableBlocks (renderStmts entries finalSep)).map SchemaChunk.id =
      entries.map (fun e => e.2.1) := by
  rw [extract_render hall hfin]
  simp [mkChunk]

/-- The spec's end-to-end schema example, as generator entries: two
statements separated by one space. -/
def ddlEntriesExample : List (List Char × List Char × List Char) :=
  [([], "patient".data, "id INT PRIMARY KEY, dob DATE".data),
   ([' '], "roster_patient".data, "roster_id INT, patient_id INT".data)]

set_option maxRecDepth 20000 in
/-- Witness for C1: the spec's two-table example text yields exactly the
chunk ids `patient` and `roster_patient`, in order. -/
theorem extraction_wellformed_ids_witness :
    (∀ e ∈ ddlEntriesExample, entryOKb e = true) ∧ sepOKb [] = true ∧
    (extractCreateTableBlocks (renderStmts ddlEntriesExample [])).map SchemaChunk.id =
      ddlEntriesExample.map (fun e => e.2.1) :=
  ⟨by decide, by decide, extraction_wellformed_ids ddlEntriesExample [] (by decide)
    (by decide)⟩

/-!
C2: the per-chunk length cap of `_truncate_text`.
-/

theorem truncateText_bound (t : List Char) :
    (truncateText t).length ≤ 4000 + truncMarker.length ∧
      (4000 < (truncateText t).length → truncMarker <:+ truncateText t) := by
  unfold truncateText
  by_cases h : t.length ≤ 4000
  · rw [if_pos h]
    exact ⟨le_trans h (Nat.le_add_right _ _), fun hgt => absurd h (by omega)⟩
  · rw [if_neg h]
    refine ⟨?_, fun _ => List.suffix_append _ _⟩
    have hmin : (t.take 4000).length ≤ 4000 := by
      rw [List.length_take]
      exact Nat.min_le_left _ _
    simp only [List.length_append]
    omega

/-- C2: every chunk produced by extraction has a text of length at most
4000 plus the length of the 30-character truncation marker (so at most
4030); and whenever the text exceeds 4000 characters the truncation
marker is present as a suffix — oversized renderings are truncated with
a visible marker, never silently dropped. -/
theorem chunk_text_length_bound (s : List Char) (c : SchemaChunk)
    (hc : c ∈ extractCreateTableBlocks s) :
    c.text.length ≤ 4000 + truncMarker.length ∧
      (4000 < c.text.length → truncMarker <:+ c.text) := by
  unfold extractCreateTableBlocks at hc
  rcases List.mem_map.mp hc with ⟨p, _, rfl⟩
  simpa [mkChunk] using truncateText_bound (rawChunkText p.1 p.2)

/-- A one-table DDL text used as concrete input. -/
def smallDDL : List Char := renderStmts [([], ['t'], ['a'])] []

set_option maxRecDepth 20000 in
/-- Witness for C2: the chunk extracted from a small one-table DDL text
satisfies the length bound and the marker property. -/
theorem chunk_text_length_bound_witness :
    mkChunk ['t'] ['a'] ∈ extractCreateTableBlocks smallDDL ∧
      ((mkChunk ['t'] ['a']).text.length ≤ 4000 + truncMarker.length ∧
        (4000 < (mkChunk ['t'] ['a']).text.length →
          truncMarker <:+ (mkChunk ['t'] ['a']).text)) := by
  have hmem : mkChunk ['t'] ['a'] ∈ extractCreateTableBlocks smallDDL := by
    unfold smallDDL
    rw [@extract_render [([], ['t'], ['a'])] [] (by decide) (by decide)]
    simp
  exact ⟨hmem, chunk_text_length_bound smallDDL (mkChunk ['t'] ['a']) hmem⟩

/-!
A synthetic table whose rendered text exceeds 4000 characters: the
stored chunk text has length 4030, refuting a flat 4000-character cap.
-/

/-- A 4000-character statement body of plain `a`s. -/
def bigBody : List Char := List.replicate 4000 'a'

/-- A DDL text holding one `CREATE TABLE` statement with the huge body. -/
def bigDDL : List Char := renderStmts [([], ['t'], bigBody)] []

theorem not_infix_replicate {pat : List Char} {a x : Char} {n : Nat}
    (hx : x ∈ pat) (hxa : x ≠ a) : ¬ pat <:+: List.replicate n a :=
  fun h => hxa (List.eq_of_mem_replicate (h.subset hx))

theorem containsSeq_replicate_false {pat : List Char} {a x : Char} {n : Nat}
    (hx : x ∈ pat) (hxa : x ≠ a) :
    containsSeq pat (List.replicate n a) = false :=
  (not_containsSeq_iff pat _).mpr (not_infix_replicate hx hxa)

theorem isPrefixOf_replicate_false {pat : List Char} {a x : Char} {n : Nat}
    (hx : x ∈ pat) (hxa : x ≠ a) :
    pat.isPrefixOf (List.replicate n a) = false := by
  cases h : pat.isPrefixOf (List.replicate n a) with
  | false => rfl
  | true =>
    exact absurd (List.isPrefixOf_iff_prefix.mp h).isInfix (not_infix_replicate hx hxa)

theorem dropWhile_replicate_false {p : Char → Bool} {a : Char} (h : p a = false) :
    ∀ n, List.dropWhile p (List.replicate n a) = List.replicate n a
  | 0 => rfl
  | n + 1 => by
    rw [List.replicate_succ, List.dropWhile_cons_of_neg (by simp [h])]

theorem pyStrip_replicate {a : Char} (h : isPyWs a = false) (n : Nat) :
    pyStrip (List.replicate n a) = List.replicate n a := by
  unfold pyStrip pyLstrip pyRstrip
  rw [dropWhile_replicate_false h, List.reverse_replicate, dropWhile_replicate_false h,
    List.reverse_replicate]

theorem rstripCommas_replicate {a : Char} (h : a ≠ ',') (n : Nat) :
    rstripCommas (List.replicate n a) = List.replicate n a := by
  unfold rstripCommas
  rw [List.reverse_replicate, dropWhile_replicate_false (by simp [h]),
    List.reverse_replicate]

/-- `splitlines` on a nonempty text holding no line boundary returns the
single line, whatever has been accumulated so far. -/
theorem splitLinesGo_no_break {s : List Char} (hs : ∀ c ∈ s, isLineBreak c = false)
    (hne : s ≠ []) : ∀ cur, splitLinesGo cur s = [cur.reverse ++ s] := by
  induction s with
  | nil => exact absurd rfl hne
  | cons c t ih =>
    intro cur
    have hc : isLineBreak c = false := hs c (by simp)
    have hcr : ¬ (c = '\r') := by
      intro h
      rw [h] at hc
      exact absurd hc (by decide)
    cases t with
    | nil => simp [splitLinesGo, hc]
    | cons c2 rest =>
      have ht : ∀ x ∈ c2 :: rest, isLineBreak x = false := fun x hx => hs x (by simp [hx])
      rw [show splitLinesGo cur (c :: c2 :: rest) = splitLinesGo (c :: cur) (c2 :: rest) from
        by simp [splitLinesGo, hcr, hc]]
      rw [ih ht (by simp) (c :: cur)]
      simp [List.append_assoc]

theorem splitLinesPy_no_break {s : List Char} (hs : ∀ c ∈ s, isLineBreak c = false)
    (hne : s ≠ []) : splitLinesPy s = [s] := by
  unfold splitLinesPy
  rw [splitLinesGo_no_break hs hne []]
  simp

theorem bigBody_ne_nil : bigBody ≠ [] := by
  intro h
  unfold bigBody at h
  have := congrArg List.length h
  rw [List.length_replicate, List.length_nil] at this
  exact absurd this (by decide)

theorem bodyLines_big : bodyLines bigBody = [bigBody] := by
  have hs : ∀ c ∈ bigBody, isLineBreak c = false := fun c hc => by
    rw [List.eq_of_mem_replicate (show c ∈ List.replicate 4000 'a' from hc)]
    decide
  unfold bodyLines
  rw [splitLinesPy_no_break hs bigBody_ne_nil]
  have h1 : pyStrip bigBody = bigBody := pyStrip_replicate (by decide) 4000
  have h2 : (fun l : List Char => !l.isEmpty) bigBody = true := by
    show (!bigBody.isEmpty) = true
    cases hb : bigBody.isEmpty with
    | false => rfl
    | true => exact absurd (by simpa using hb) bigBody_ne_nil
  rw [List.map_cons, h1, List.map_nil, List.filter_cons, if_pos h2, List.filter_nil]

theorem isConstraintLine_big : isConstraintLine bigBody = false := by
  have hl : lowerStr bigBody = bigBody := by
    unfold bigBody lowerStr
    rw [List.map_replicate, show lowerChar 'a' = 'a' from rfl]
  simp only [isConstraintLine, hl]
  unfold bigBody
  rw [containsSeq_replicate_false (show ' ' ∈ " primary key".data from by decide) (by decide),
    containsSeq_replicate_false (show ' ' ∈ " foreign key".data from by decide) (by decide),
    isPrefixOf_replicate_false (show 'c' ∈ "constraint".data from by decide) (by decide),
    isPrefixOf_replicate_false (show 'u' ∈ "unique".data from by decide) (by decide),
    isPrefixOf_replicate_false (show 'i' ∈ "index".data from by decide) (by decide),
    isPrefixOf_replicate_false (show 'k' ∈ "key ".data from by decide) (by decide)]
  rfl

theorem classify_big : classifyLines [bigBody] = ([bigBody], []) := by
  have hrs : rstripCommas bigBody = bigBody := rstripCommas_replicate (by decide) 4000
  rw [show classifyLines [bigBody] =
      (rstripCommas bigBody :: (classifyLines []).1, (classifyLines []).2) from by
    simp only [classifyLines, isConstraintLine_big, Bool.false_eq_true, if_false]]
  rw [hrs]
  rfl

theorem compact_big : compactLines bigBody = [bigBody] := by
  simp only [compactLines, bodyLines_big, classify_big]
  rw [show capColumns [bigBody] = [bigBody] from by
    unfold capColumns
    rw [if_neg (by norm_num)]]
  rfl

theorem rawChunk_big_len : (rawChunkText ['t'] bigBody).length = 4069 := by
  unfold rawChunkText
  rw [show pyJoin ",\n  ".data (compactLines bigBody) = bigBody from by
    rw [compact_big]
    rfl]
  simp only [List.length_append, List.length_cons, List.length_nil]
  rw [show bigBody.length = 4000 from by
    unfold bigBody
    exact List.length_replicate 4000 'a']

theorem bigChunk_text_len : (mkChunk ['t'] bigBody).text.length = 4030 := by
  simp only [mkChunk]
  unfold truncateText
  rw [if_neg (by rw [rawChunk_big_len]; norm_num)]
  simp only [List.length_append, List.length_take, rawChunk_big_len]
  rw [show truncMarker.length = 30 from rfl]
  omega

theorem bodyOKb_big : bodyOKb bigBody = true := by
  unfold bodyOKb bigBody
  rw [containsSeq_replicate_false (show ')' ∈ ");".data from by decide) (by decide),
    containsSeq_replicate_false (show '-' ∈ "--".data from by decide) (by decide),
    containsSeq_replicate_false (show '/' ∈ "/*".data from by decide) (by decide)]
  rfl

theorem extract_bigDDL : extractCreateTableBlocks bigDDL = [mkChunk ['t'] bigBody] := by
  have hall : ∀ e ∈ [(([] : List Char), (['t'] : List Char), bigBody)], entryOKb e = true := by
    intro e he
    rw [List.mem_singleton] at he
    subst he
    show (sepOKb [] && nameOKb ['t'] && bodyOKb bigBody) = true
    rw [bodyOKb_big]
    decide
  unfold bigDDL
  rw [@extract_render [([], ['t'], bigBody)] [] hall (by decide)]
  simp

/-- C2 counterexample: a synthetic table whose rendered text is 4069
characters long yields a chunk whose stored text has length 4030 — the
4000-character prefix plus the 30-character truncation marker — which
exceeds the claimed flat cap of 4000 characters. -/
theorem oversized_chunk_counterexample :
    (extractCreateTableBlocks bigDDL).map (fun c => c.text.length) = [4030] ∧
      ¬ (4030 ≤ 4000) := by
  refine ⟨?_, by norm_num⟩
  rw [extract_bigDDL]
  simp [bigChunk_text_len]
